import Mathlib

/-!
Shallow embedding of the Gerrit multi-instance polling client
(`prow/gerrit/client/client.go`): the data model, the per-project
pagination/classification algorithm (`QueryChangesForProject`), the fan-out
poll (`queryAllChanges`), patchset-level comment injection
(`injectPatchsetMessages`), handler reconciliation (`UpdateClients`) and
credential rotation (`authenticateOnce`).

Timestamps are integers; `time.Time.After` is strict `<`. Go maps appear as
association lists (`alookup` mirrors map indexing). The Gerrit REST gateway is
an oracle: a per-project stream of page responses and a comment-listing
function. A Go `nil`-pointer dereference is modelled as an explicit `panicked`
outcome; Go `error` returns are `Except`.
-/

namespace GerritClient

/-- Instants; `a.After(b)` in Go is `b < a` here. -/
abbrev Timestamp := Int

/-- `Merged` status string of a Gerrit change (client.go). -/
def Merged : String := "MERGED"

/-- `New` (pending) status string of a Gerrit change (client.go). -/
def New : String := "NEW"

/-- One revision (patchset) of a change: creation time and numeric sequence. -/
structure RevisionInfo where
  created : Timestamp
  number : Int
  deriving Repr, DecidableEq

/-- One message on a change: author, time, text and the revision sequence
number it was posted against. -/
structure ChangeMessageInfo where
  author : String
  date : Timestamp
  message : String
  revisionNumber : Int
  deriving Repr, DecidableEq

/-- One review comment as returned by `ListChangeComments`. -/
structure CommentInfo where
  author : String
  updated : Timestamp
  message : String
  patchSet : Int
  deriving Repr, DecidableEq

/-- A Gerrit change. `submitted` is a pointer in the wire type, hence
`Option`; `revisions` is the revision-id keyed map. -/
structure ChangeInfo where
  id : String
  number : Nat
  status : String
  updated : Timestamp
  submitted : Option Timestamp
  currentRevision : String
  revisions : List (String × RevisionInfo)
  messages : List ChangeMessageInfo
  deriving Repr, DecidableEq

/-- Go map indexing over an association list. -/
def alookup {α β : Type} [DecidableEq α] (k : α) : List (α × β) → Option β
  | [] => none
  | (k2, v) :: rest => if k = k2 then some v else alookup k rest

/-- Result of `ListChangeComments`: thread path to comment sequence. -/
abbrev CommentMap := List (String × List CommentInfo)

/-- The comment-listing capability of the gateway, keyed by change id. -/
abbrev CommentService := String → Except Unit CommentMap

/-- A synthetic message built from a patchset-level comment
(`injectPatchsetMessages` loop body). -/
def commentToMessage (c : CommentInfo) : ChangeMessageInfo :=
  { author := c.author, date := c.updated, message := c.message,
    revisionNumber := c.patchSet }

/-- Insert one message into an already-sorted suffix, keeping every message
with a strictly earlier date in front of it, so that messages with equal
dates keep their original relative order. -/
def insertByDate (m : ChangeMessageInfo) : List ChangeMessageInfo → List ChangeMessageInfo
  | [] => [m]
  | y :: ys => if y.date < m.date then y :: insertByDate m ys else m :: y :: ys

/-- `sort.SliceStable(change.Messages, Date.Before)`: the stable sort of the
messages by timestamp, written as a structurally recursive stable insertion
sort (the stable sort of a sequence under a given key is unique, so this
agrees with any stable sorting algorithm, in particular Go's). -/
def sortMessages : List ChangeMessageInfo → List ChangeMessageInfo
  | [] => []
  | m :: rest => insertByDate m (sortMessages rest)

/-- `injectPatchsetMessages`: list the change's comments; on error return it
(callers only log it, and the change is untouched since the failure precedes
any mutation). Otherwise append each `/PATCHSET_LEVEL` comment as a synthetic
message and, if at least one was appended, stably re-sort by timestamp. -/
def injectPatchsetMessages (listComments : CommentService)
    (change : ChangeInfo) : Except Unit ChangeInfo :=
  match listComments change.id with
  | .error e => .error e
  | .ok outer =>
    match alookup "/PATCHSET_LEVEL" outer with
    | none => .ok change
    | some comments =>
      if comments.isEmpty then .ok change
      else .ok { change with
        messages := sortMessages (change.messages ++ comments.map commentToMessage) }

/-- The change actually classified in the `New` branch: the in-place mutation
of `injectPatchsetMessages(&change)` succeeded, or — the error being only
logged, and the failure preceding any mutation — the change as received. -/
def mergePatchsetMessages (listComments : CommentService) (change : ChangeInfo) :
    ChangeInfo :=
  match injectPatchsetMessages listComments change with
  | .ok c2 => c2
  | .error _ => change

/-- The `newMessages` scan of the `New` branch: some message tagged with the
current revision's sequence number has a timestamp strictly after the
watermark. -/
def newMessagesFor (lastUpdate : Timestamp) (rev : RevisionInfo)
    (msgs : List ChangeMessageInfo) : Bool :=
  msgs.any fun m => m.revisionNumber == rev.number && decide (lastUpdate < m.date)

/-- The body of the status switch in `QueryChangesForProject` for one change
already known to satisfy `lastUpdate < change.updated`: `none` models the Go
nil-pointer panic on `*change.Submitted`; `some pending2` is the accumulator
after the change was appended or skipped. -/
def classifyChange (lastUpdate : Timestamp) (listComments : CommentService)
    (change : ChangeInfo) (pending : List ChangeInfo) : Option (List ChangeInfo) :=
  if change.status = Merged then
    match change.submitted with
    | none => none
    | some submitted =>
      if lastUpdate < submitted then some (pending ++ [change]) else some pending
  else if change.status = New then
    match alookup change.currentRevision change.revisions with
    | none => some pending
    | some rev =>
      let change2 := mergePatchsetMessages listComments change
      if newMessagesFor lastUpdate rev change2.messages ||
          decide (lastUpdate < rev.created) then
        some (pending ++ [change2])
      else some pending
  else some pending

/-- Outcome of scanning the changes of one page in order. -/
inductive PageStep where
  | cont (pending : List ChangeInfo)
  | stop (pending : List ChangeInfo)
  | panicked
  deriving Repr, DecidableEq

/-- The inner `for _, change := range *changes` loop: stop (returning the
accumulator) at the first change not updated strictly after `lastUpdate`,
otherwise classify and continue. -/
def processChanges (lastUpdate : Timestamp) (listComments : CommentService) :
    List ChangeInfo → List ChangeInfo → PageStep
  | [], pending => .cont pending
  | change :: rest, pending =>
    if lastUpdate < change.updated then
      match classifyChange lastUpdate listComments change pending with
      | none => .panicked
      | some pending2 => processChanges lastUpdate listComments rest pending2
    else .stop pending

/-- One response of the gateway's `QueryChanges`. -/
abbrev Page := Except Unit (List ChangeInfo)

/-- Outcome of a per-project poll, counting how many pages were requested. -/
inductive PollResult where
  | ok (changes : List ChangeInfo) (pagesRequested : Nat)
  | queryError (pagesRequested : Nat)
  | panicked
  deriving Repr, DecidableEq

/-- The paging loop of `gerritInstanceHandler.QueryChangesForProject`: request
pages in order; a transport error aborts the poll; an empty (or exhausted)
response ends it; otherwise scan the page, returning early when the scan
stops. The remaining `pages` list is the stream of responses the gateway
would give to successive requests. -/
def pollPages (lastUpdate : Timestamp) (listComments : CommentService) :
    List Page → List ChangeInfo → Nat → PollResult
  | [], pending, n => .ok pending n
  | page :: rest, pending, n =>
    match page with
    | .error _ => .queryError (n + 1)
    | .ok changes =>
      if changes.isEmpty then .ok pending (n + 1)
      else
        match processChanges lastUpdate listComments changes pending with
        | .stop pending2 => .ok pending2 (n + 1)
        | .panicked => .panicked
        | .cont pending2 => pollPages lastUpdate listComments rest pending2 (n + 1)

/-- The change-query and comment capabilities of one instance's gateway,
as an oracle: `pagesFor` is the stream of page responses the server would
return for that project's query. -/
structure Gateway where
  pagesFor : String → List Page
  listComments : CommentService

/-- An optional per-project query filter (`config.GerritQueryFilter`). -/
structure GerritQueryFilter where
  branches : List String
  excludedBranches : List String
  deriving Repr, DecidableEq

/-- The watched-project set of one instance, with optional filters. -/
abbrev ProjectsMap := List (String × Option GerritQueryFilter)

/-- Per-instance handler: instance name, watched projects, bound gateway. -/
structure gerritInstanceHandler where
  inst : String
  projects : ProjectsMap
  gateway : Gateway

/-- Handler-level `QueryChangesForProject`: run the paging loop from an empty
accumulator against the gateway's response stream for the project. -/
def gerritInstanceHandler.QueryChangesForProject (h : gerritInstanceHandler)
    (project : String) (lastUpdate : Timestamp) : PollResult :=
  pollPages lastUpdate h.gateway.listComments (h.gateway.pagesFor project) [] 0

/-- Map a per-project poll outcome to the fan-out path's treatment of it:
a transport error is logged and the project skipped (contributes nothing),
a panic crashes the poll. -/
def pollResultChanges : PollResult → Option (List ChangeInfo)
  | .ok cs _ => some cs
  | .queryError _ => some []
  | .panicked => none

/-- One project's contribution inside `queryAllChanges`: a project absent
from the per-instance sync state defaults its watermark to `timeNow`, the
time taken at the start of the poll. -/
def projectPollChanges (timeNow : Timestamp) (lastState : List (String × Timestamp))
    (gw : Gateway) (project : String) : Option (List ChangeInfo) :=
  let lastUpdate := (alookup project lastState).getD timeNow
  pollResultChanges (pollPages lastUpdate gw.listComments (gw.pagesFor project) [] 0)

/-- The project loop of `queryAllChanges`, concatenating per-project results. -/
def queryAllChangesAux (gw : Gateway) (timeNow : Timestamp)
    (lastState : List (String × Timestamp)) :
    ProjectsMap → List ChangeInfo → Option (List ChangeInfo)
  | [], acc => some acc
  | (project, _) :: rest, acc =>
    match projectPollChanges timeNow lastState gw project with
    | none => none
    | some cs => queryAllChangesAux gw timeNow lastState rest (acc ++ cs)

/-- `gerritInstanceHandler.queryAllChanges`: poll every watched project,
log-and-skip per-project errors, concatenate the results. -/
def gerritInstanceHandler.queryAllChanges (h : gerritInstanceHandler)
    (timeNow : Timestamp) (lastState : List (String × Timestamp)) :
    Option (List ChangeInfo) :=
  queryAllChangesAux h.gateway timeNow lastState h.projects []

/-- The multi-instance registry: the instance-to-handler map and the
credential last pushed by the rotator. -/
structure Client where
  handlers : List (String × gerritInstanceHandler)
  previousToken : String

/-- One credential-rotation tick (`authenticateOnce`). `readAuth` is the
outcome of the configured source function; on failure the Go code logs the
error and continues with the zero value, so `current` is the empty string
there. The returned list records the `SetCookieAuth("o", current)` pushes,
one per handler, performed when `current` differs from the remembered token. -/
def authenticateOnce (readAuth : Except Unit String) (c : Client) :
    Client × List (String × String) :=
  let current := match readAuth with
    | .ok s => s
    | .error _ => ""
  if current = c.previousToken then (c, [])
  else ({ c with previousToken := current },
    c.handlers.map fun h => (h.1, current))

/-- Instance-to-project-to-watermark sync state (`LastSyncState`). -/
abbrev LastSyncState := List (String × List (String × Timestamp))

/-- `Client.QueryChangesForInstance`: an unregistered instance is a soft
miss — log a warning and return an empty sequence, never an error. -/
def Client.QueryChangesForInstance (c : Client) (inst : String)
    (lastState : LastSyncState) (timeNow : Timestamp) : Option (List ChangeInfo) :=
  match alookup inst c.handlers with
  | none => some []
  | some h => h.queryAllChanges timeNow ((alookup inst lastState).getD [])

/-- Outcome of the client-level single-project query. -/
inductive ClientPollResult where
  | ok (changes : List ChangeInfo)
  | err (msg : String)
  | panicked
  deriving Repr, DecidableEq

/-- `Client.QueryChangesForProject`: an unregistered instance or project is
an explicit not-found error; otherwise run the handler-level poll, wrapping
a query failure. -/
def Client.QueryChangesForProject (c : Client) (inst project : String)
    (lastUpdate : Timestamp) : ClientPollResult :=
  match alookup inst c.handlers with
  | none => .err ("instance handler for " ++ inst ++
      " not found, it might not have been initialized yet")
  | some h =>
    match alookup project h.projects with
    | none => .err ("project " ++ project ++ " from instance " ++ inst ++
        " not registered in gerrit handler, it might not have been initialized yet")
    | some _ =>
      match h.QueryChangesForProject project lastUpdate with
      | .ok cs _ => .ok cs
      | .queryError _ => .err ("failed to query changes for project " ++
          project ++ " of " ++ inst ++ " instance")
      | .panicked => .panicked

/-- `Client.UpdateClients`: rebuild the handler map against the desired
instance map. A desired instance with an existing handler keeps that handler
with only its project set replaced; a new instance gets a fresh handler from
`newGateway` (the `gerrit.NewClient` oracle), a construction failure being
counted into the aggregate error (the second component; the Go aggregate is
non-nil exactly when the count is positive). Instances absent from the
desired map are dropped. -/
def UpdateClients (newGateway : String → Except Unit Gateway)
    (old : List (String × gerritInstanceHandler)) :
    List (String × ProjectsMap) → List (String × gerritInstanceHandler) × Nat
  | [] => ([], 0)
  | (inst, projs) :: rest =>
    let r := UpdateClients newGateway old rest
    match alookup inst old with
    | some handler => ((inst, { handler with projects := projs }) :: r.1, r.2)
    | none =>
      match newGateway inst with
      | .error _ => (r.1, r.2 + 1)
      | .ok gw => ((inst, { inst := inst, projects := projs, gateway := gw }) :: r.1, r.2)

/-! Concrete fixtures used to instantiate the theorems. -/

/-- A comment service with no comments. -/
def lcNone : CommentService := fun _ => .ok []

/-- A comment service whose listing always fails. -/
def lcErr : CommentService := fun _ => .error ()

/-- A gateway with no pages and no comments. -/
def gwEmpty : Gateway := { pagesFor := fun _ => [], listComments := lcNone }

/-- A merged change updated and submitted after watermark 0. -/
def cFreshMerged : ChangeInfo :=
  { id := "I100", number := 100, status := Merged, updated := 5,
    submitted := some 3, currentRevision := "r1", revisions := [],
    messages := [] }

/-- A change last updated exactly at watermark 0 (not strictly after). -/
def cStale : ChangeInfo :=
  { cFreshMerged with id := "I101", number := 101, updated := 0 }

/-- A change sitting after the stale one in page order. -/
def cPost : ChangeInfo :=
  { cFreshMerged with id := "I102", number := 102, updated := -1 }

/-- A merged change updated after watermark 0 but submitted before it. -/
def cStaleSubmit : ChangeInfo :=
  { cFreshMerged with
    id := "I103"
    number := 103
    updated := 10
    submitted := some (-5) }

/-- A pending change whose current revision was created after watermark 0. -/
def cNewFresh : ChangeInfo :=
  { id := "I104", number := 104, status := New, updated := 10,
    submitted := none, currentRevision := "r1",
    revisions := [("r1", { created := 5, number := 1 })], messages := [] }

/-- A handler bound to the empty gateway. -/
def hExample : gerritInstanceHandler :=
  { inst := "gerrit.example.com", projects := [], gateway := gwEmpty }

/-- A client remembering a non-empty credential. -/
def clientTok : Client :=
  { handlers := [("gerrit.example.com", hExample)], previousToken := "tok" }

/-- A handler watching one project whose gateway returns one fresh change. -/
def hOneProject : gerritInstanceHandler :=
  { inst := "gerrit.example.com", projects := [("p", none)],
    gateway := { pagesFor := fun _ => [.ok [cNewFresh]], listComments := lcNone } }

/-- A client with one registered instance watching one project. -/
def clientOne : Client :=
  { handlers := [("inst1", hOneProject)], previousToken := "" }

/-- The native message at time 0 of the C8 example. -/
def msgNative : ChangeMessageInfo :=
  { author := "n", date := 0, message := "native", revisionNumber := 1 }

/-- The patchset-level comment at time 1 of the C8 example. -/
def comLate : CommentInfo :=
  { author := "a", updated := 1, message := "late", patchSet := 1 }

/-- The patchset-level comment at time -1 of the C8 example. -/
def comEarly : CommentInfo :=
  { author := "b", updated := -1, message := "early", patchSet := 1 }

/-- The comment map holding the two patchset-level comments. -/
def outerTwo : CommentMap := [("/PATCHSET_LEVEL", [comLate, comEarly])]

/-- A comment service returning the two patchset-level comments. -/
def lcTwo : CommentService := fun _ => .ok outerTwo

/-- A NEW change carrying only the native message at time 0. -/
def chNative : ChangeInfo :=
  { id := "I8", number := 8, status := New, updated := 10, submitted := none,
    currentRevision := "r1", revisions := [("r1", { created := 0, number := 1 })],
    messages := [msgNative] }

/-- The `gerrit.NewClient` oracle of the C7 example: construction fails for
the instance named "bad" and succeeds elsewhere. -/
def ngPartial : String → Except Unit Gateway :=
  fun s => if s = "bad" then .error () else .ok gwEmpty

/-- The pre-existing handler map of the C7 example. -/
def oldHandlers : List (String × gerritInstanceHandler) :=
  [("inst1", hOneProject)]

/-- The desired instance map of the C7 example: "inst1" kept with a new
project set, "new1" added, "bad" failing to construct. -/
def desiredMap : List (String × ProjectsMap) :=
  [("inst1", [("q", none)]), ("new1", [("r", none)]), ("bad", [])]

/-! Supporting lemmas. -/

theorem mem_insertByDate {x m : ChangeMessageInfo} {l : List ChangeMessageInfo} :
    x ∈ insertByDate m l ↔ x = m ∨ x ∈ l := by
  induction l with
  | nil => simp [insertByDate]
  | cons y ys ih =>
    by_cases h : y.date < m.date
    · simp only [insertByDate, if_pos h, List.mem_cons, ih]
      tauto
    · simp only [insertByDate, if_neg h, List.mem_cons]

theorem insertByDate_perm (m : ChangeMessageInfo) (l : List ChangeMessageInfo) :
    List.Perm (insertByDate m l) (m :: l) := by
  induction l with
  | nil => simp [insertByDate]
  | cons y ys ih =>
    by_cases h : y.date < m.date
    · simp only [insertByDate, if_pos h]
      exact (ih.cons y).trans (List.Perm.swap m y ys)
    · simp [insertByDate, h]

theorem sortMessages_perm (l : List ChangeMessageInfo) :
    List.Perm (sortMessages l) l := by
  induction l with
  | nil => simp [sortMessages]
  | cons m rest ih =>
    exact (insertByDate_perm m (sortMessages rest)).trans (ih.cons m)

theorem pairwise_insertByDate {m : ChangeMessageInfo} {l : List ChangeMessageInfo}
    (h : l.Pairwise (fun a b => a.date ≤ b.date)) :
    (insertByDate m l).Pairwise (fun a b => a.date ≤ b.date) := by
  induction l with
  | nil => simp [insertByDate]
  | cons y ys ih =>
    rcases List.pairwise_cons.mp h with ⟨hy, hys⟩
    by_cases hlt : y.date < m.date
    · simp only [insertByDate, if_pos hlt]
      refine List.pairwise_cons.mpr ⟨?_, ih hys⟩
      intro b hb
      rcases mem_insertByDate.mp hb with rfl | hb2
      · exact le_of_lt hlt
      · exact hy b hb2
    · simp only [insertByDate, if_neg hlt]
      refine List.pairwise_cons.mpr ⟨?_, h⟩
      intro b hb
      rcases List.mem_cons.mp hb with rfl | hb2
      · exact le_of_not_lt hlt
      · exact le_trans (le_of_not_lt hlt) (hy b hb2)

theorem sortMessages_pairwise (l : List ChangeMessageInfo) :
    (sortMessages l).Pairwise (fun a b => a.date ≤ b.date) := by
  induction l with
  | nil => simp [sortMessages]
  | cons m rest ih => exact pairwise_insertByDate ih

theorem filter_date_insertByDate (d : Timestamp) (m : ChangeMessageInfo)
    (l : List ChangeMessageInfo) :
    (insertByDate m l).filter (fun x => x.date == d) =
      if m.date == d then m :: l.filter (fun x => x.date == d)
      else l.filter (fun x => x.date == d) := by
  induction l with
  | nil =>
    simp only [insertByDate, List.filter_cons, List.filter_nil]
  | cons y ys ih =>
    by_cases hlt : y.date < m.date
    · by_cases hm : m.date == d
      · have hmd : m.date = d := by simpa using hm
        have hne2 : y.date ≠ d := by linarith [hlt, hmd]
        have hy : (y.date == d) = false := by simpa using hne2
        simp [insertByDate, hlt, List.filter_cons, ih, hm, hy]
      · simp [insertByDate, hlt, List.filter_cons, ih, hm]
    · simp [insertByDate, hlt, List.filter_cons]

theorem filter_date_sortMessages (d : Timestamp) (l : List ChangeMessageInfo) :
    (sortMessages l).filter (fun x => x.date == d) =
      l.filter (fun x => x.date == d) := by
  induction l with
  | nil => rfl
  | cons m rest ih =>
    show (insertByDate m (sortMessages rest)).filter (fun x => x.date == d) = _
    rw [filter_date_insertByDate, List.filter_cons, ih]

theorem injectPatchsetMessages_ok_of {listComments : CommentService}
    {change : ChangeInfo} {outer : CommentMap} {comments : List CommentInfo}
    (houter : listComments change.id = .ok outer)
    (hcomm : alookup "/PATCHSET_LEVEL" outer = some comments)
    (hne : comments ≠ []) :
    injectPatchsetMessages listComments change = .ok { change with
      messages := sortMessages (change.messages ++ comments.map commentToMessage) } := by
  cases comments with
  | nil => exact absurd rfl hne
  | cons c cs => simp [injectPatchsetMessages, houter, hcomm]

theorem injectPatchsetMessages_preserves {listComments : CommentService}
    {change c2 : ChangeInfo}
    (h : injectPatchsetMessages listComments change = .ok c2) :
    c2.id = change.id ∧ c2.status = change.status ∧ c2.updated = change.updated ∧
    c2.submitted = change.submitted ∧ c2.currentRevision = change.currentRevision ∧
    c2.revisions = change.revisions := by
  unfold injectPatchsetMessages at h
  split at h
  · exact absurd h (by simp)
  · split at h
    · cases h
      simp
    · split at h
      · cases h
        simp
      · cases h
        simp

theorem mergePatchsetMessages_updated (listComments : CommentService)
    (change : ChangeInfo) :
    (mergePatchsetMessages listComments change).updated = change.updated := by
  unfold mergePatchsetMessages
  split
  · next h => exact (injectPatchsetMessages_preserves h).2.2.1
  · rfl

theorem mergePatchsetMessages_of_error {listComments : CommentService}
    {change : ChangeInfo}
    (h : injectPatchsetMessages listComments change = .error ()) :
    mergePatchsetMessages listComments change = change := by
  unfold mergePatchsetMessages
  rw [h]

theorem classifyChange_merged {change : ChangeInfo} {s : Timestamp}
    (hst : change.status = Merged) (hsub : change.submitted = some s)
    (lu : Timestamp) (lc : CommentService) (pending : List ChangeInfo) :
    classifyChange lu lc change pending =
      some (if lu < s then pending ++ [change] else pending) := by
  by_cases h : lu < s <;>
    simp [classifyChange, hst, hsub, h]

theorem classifyChange_merged_none {change : ChangeInfo}
    (hst : change.status = Merged) (hsub : change.submitted = none)
    (lu : Timestamp) (lc : CommentService) (pending : List ChangeInfo) :
    classifyChange lu lc change pending = none := by
  simp [classifyChange, hst, hsub]

theorem classifyChange_new {change : ChangeInfo} {rev : RevisionInfo}
    (hst : change.status = New)
    (hrev : alookup change.currentRevision change.revisions = some rev)
    (lu : Timestamp) (lc : CommentService) (pending : List ChangeInfo) :
    classifyChange lu lc change pending =
      some (if newMessagesFor lu rev (mergePatchsetMessages lc change).messages ||
              decide (lu < rev.created)
            then pending ++ [mergePatchsetMessages lc change] else pending) := by
  by_cases h : (newMessagesFor lu rev (mergePatchsetMessages lc change).messages ||
      decide (lu < rev.created)) = true <;>
    simp [classifyChange, hst, hrev, h, (by decide : New ≠ Merged)]

theorem classifyChange_new_norev {change : ChangeInfo}
    (hst : change.status = New)
    (hrev : alookup change.currentRevision change.revisions = none)
    (lu : Timestamp) (lc : CommentService) (pending : List ChangeInfo) :
    classifyChange lu lc change pending = some pending := by
  simp [classifyChange, hst, hrev, (by decide : New ≠ Merged)]

theorem classifyChange_other {change : ChangeInfo}
    (hm : change.status ≠ Merged) (hn : change.status ≠ New)
    (lu : Timestamp) (lc : CommentService) (pending : List ChangeInfo) :
    classifyChange lu lc change pending = some pending := by
  simp [classifyChange, hm, hn]

theorem processChanges_cons_classified {lu : Timestamp} {lc : CommentService}
    {change : ChangeInfo} {pending pending2 : List ChangeInfo}
    (hupd : lu < change.updated)
    (hcl : classifyChange lu lc change pending = some pending2)
    (rest : List ChangeInfo) :
    processChanges lu lc (change :: rest) pending =
      processChanges lu lc rest pending2 := by
  simp only [processChanges]
  rw [if_pos hupd, hcl]

theorem processChanges_cons_panic {lu : Timestamp} {lc : CommentService}
    {change : ChangeInfo} {pending : List ChangeInfo}
    (hupd : lu < change.updated)
    (hcl : classifyChange lu lc change pending = none)
    (rest : List ChangeInfo) :
    processChanges lu lc (change :: rest) pending = .panicked := by
  simp only [processChanges]
  rw [if_pos hupd, hcl]

theorem processChanges_cons_stale {lu : Timestamp} {lc : CommentService}
    {change : ChangeInfo} {pending : List ChangeInfo}
    (hupd : ¬ lu < change.updated) (rest : List ChangeInfo) :
    processChanges lu lc (change :: rest) pending = .stop pending := by
  simp only [processChanges]
  rw [if_neg hupd]

theorem processChanges_append_stale {lu : Timestamp} {lc : CommentService}
    {pre : List ChangeInfo} {ch : ChangeInfo} (post : List ChangeInfo)
    {pending acc : List ChangeInfo}
    (hpre : processChanges lu lc pre pending = .cont acc)
    (hch : ¬ lu < ch.updated) :
    processChanges lu lc (pre ++ ch :: post) pending = .stop acc := by
  induction pre generalizing pending with
  | nil =>
    cases hpre
    exact processChanges_cons_stale hch post
  | cons c pre2 ih =>
    by_cases hc : lu < c.updated
    · cases hcl : classifyChange lu lc c pending with
      | none =>
        rw [processChanges_cons_panic hc hcl] at hpre
        exact absurd hpre (by simp)
      | some p2 =>
        rw [processChanges_cons_classified hc hcl] at hpre
        rw [List.cons_append, processChanges_cons_classified hc hcl]
        exact ih hpre
    · rw [processChanges_cons_stale hc] at hpre
      exact absurd hpre (by simp)

theorem pollPages_nil (lu : Timestamp) (lc : CommentService)
    (pending : List ChangeInfo) (n : Nat) :
    pollPages lu lc [] pending n = .ok pending n := rfl

theorem pollPages_cons_error (lu : Timestamp) (lc : CommentService)
    (e : Unit) (rest : List Page) (pending : List ChangeInfo) (n : Nat) :
    pollPages lu lc (.error e :: rest) pending n = .queryError (n + 1) := rfl

theorem pollPages_cons_empty (lu : Timestamp) (lc : CommentService)
    (rest : List Page) (pending : List ChangeInfo) (n : Nat) :
    pollPages lu lc (.ok [] :: rest) pending n = .ok pending (n + 1) := rfl

theorem pollPages_cons_page (lu : Timestamp) (lc : CommentService)
    (c : ChangeInfo) (cs : List ChangeInfo) (rest : List Page)
    (pending : List ChangeInfo) (n : Nat) :
    pollPages lu lc (.ok (c :: cs) :: rest) pending n =
      match processChanges lu lc (c :: cs) pending with
      | .stop pending2 => .ok pending2 (n + 1)
      | .panicked => .panicked
      | .cont pending2 => pollPages lu lc rest pending2 (n + 1) := rfl

theorem processChanges_nil (lu : Timestamp) (lc : CommentService)
    (pending : List ChangeInfo) :
    processChanges lu lc [] pending = .cont pending := rfl

theorem mem_classifyChange {lu : Timestamp} {lc : CommentService}
    {change : ChangeInfo} {pending pending2 : List ChangeInfo} {x : ChangeInfo}
    (hupd : lu < change.updated)
    (hcl : classifyChange lu lc change pending = some pending2)
    (hx : x ∈ pending2) : x ∈ pending ∨ lu < x.updated := by
  by_cases hm : change.status = Merged
  · cases hsub : change.submitted with
    | none =>
      rw [classifyChange_merged_none hm hsub] at hcl
      exact absurd hcl (by simp)
    | some s =>
      rw [classifyChange_merged hm hsub] at hcl
      injection hcl with h
      subst h
      by_cases hs : lu < s
      · rw [if_pos hs] at hx
        rcases List.mem_append.mp hx with h2 | h2
        · exact Or.inl h2
        · rw [List.mem_singleton] at h2
          subst h2
          exact Or.inr hupd
      · rw [if_neg hs] at hx
        exact Or.inl hx
  · by_cases hn : change.status = New
    · cases hrev : alookup change.currentRevision change.revisions with
      | none =>
        rw [classifyChange_new_norev hn hrev] at hcl
        injection hcl with h
        subst h
        exact Or.inl hx
      | some rev =>
        rw [classifyChange_new hn hrev] at hcl
        injection hcl with h
        subst h
        by_cases hinc : (newMessagesFor lu rev
            (mergePatchsetMessages lc change).messages ||
            decide (lu < rev.created)) = true
        · rw [if_pos hinc] at hx
          rcases List.mem_append.mp hx with h2 | h2
          · exact Or.inl h2
          · rw [List.mem_singleton] at h2
            subst h2
            right
            rw [mergePatchsetMessages_updated]
            exact hupd
        · rw [if_neg hinc] at hx
          exact Or.inl hx
    · rw [classifyChange_other hm hn] at hcl
      injection hcl with h
      subst h
      exact Or.inl hx

theorem mem_processChanges {lu : Timestamp} {lc : CommentService} :
    ∀ {changes pending acc : List ChangeInfo},
    (processChanges lu lc changes pending = .cont acc ∨
      processChanges lu lc changes pending = .stop acc) →
    ∀ x ∈ acc, x ∈ pending ∨ lu < x.updated := by
  intro changes
  induction changes with
  | nil =>
    intro pending acc h x hx
    rcases h with h | h
    · rw [processChanges_nil] at h
      cases h
      exact Or.inl hx
    · rw [processChanges_nil] at h
      exact absurd h (by simp)
  | cons c cs ih =>
    intro pending acc h x hx
    by_cases hc : lu < c.updated
    · cases hcl : classifyChange lu lc c pending with
      | none =>
        rw [processChanges_cons_panic hc hcl] at h
        rcases h with h | h <;> exact absurd h (by simp)
      | some p2 =>
        rw [processChanges_cons_classified hc hcl] at h
        rcases ih h x hx with h2 | h2
        · exact mem_classifyChange hc hcl h2
        · exact Or.inr h2
    · rw [processChanges_cons_stale hc] at h
      rcases h with h | h
      · exact absurd h (by simp)
      · cases h
        exact Or.inl hx

theorem mem_pollPages {lu : Timestamp} {lc : CommentService} :
    ∀ {pages : List Page} {pending acc : List ChangeInfo} {n m : Nat},
    pollPages lu lc pages pending n = .ok acc m →
    ∀ x ∈ acc, x ∈ pending ∨ lu < x.updated := by
  intro pages
  induction pages with
  | nil =>
    intro pending acc n m h x hx
    rw [pollPages_nil] at h
    cases h
    exact Or.inl hx
  | cons page rest ih =>
    intro pending acc n m h x hx
    match page with
    | .error e =>
      rw [pollPages_cons_error] at h
      exact absurd h (by simp)
    | .ok [] =>
      rw [pollPages_cons_empty] at h
      cases h
      exact Or.inl hx
    | .ok (c :: cs) =>
      rw [pollPages_cons_page] at h
      cases hpc : processChanges lu lc (c :: cs) pending with
      | stop p2 =>
        rw [hpc] at h
        have h2 : PollResult.ok p2 (n + 1) = PollResult.ok acc m := h
        cases h2
        exact mem_processChanges (Or.inr hpc) x hx
      | panicked =>
        rw [hpc] at h
        have h2 : PollResult.panicked = PollResult.ok acc m := h
        exact absurd h2 (by simp)
      | cont p2 =>
        rw [hpc] at h
        have h2 : pollPages lu lc rest p2 (n + 1) = PollResult.ok acc m := h
        rcases ih h2 x hx with h3 | h3
        · exact mem_processChanges (Or.inl hpc) x h3
        · exact Or.inr h3

theorem classifyChange_isSome {lu : Timestamp} {lc : CommentService}
    {change : ChangeInfo} {pending : List ChangeInfo}
    (h : change.status = Merged → change.submitted ≠ none) :
    classifyChange lu lc change pending ≠ none := by
  by_cases hm : change.status = Merged
  · cases hsub : change.submitted with
    | none => exact absurd hsub (h hm)
    | some s =>
      rw [classifyChange_merged hm hsub]
      simp
  · by_cases hn : change.status = New
    · cases hrev : alookup change.currentRevision change.revisions with
      | none =>
        rw [classifyChange_new_norev hn hrev]
        simp
      | some rev =>
        rw [classifyChange_new hn hrev]
        simp
    · rw [classifyChange_other hm hn]
      simp

theorem processChanges_no_panic {lu : Timestamp} {lc : CommentService} :
    ∀ {changes pending : List ChangeInfo},
    (∀ c ∈ changes, c.status = Merged → lu < c.updated → c.submitted ≠ none) →
    processChanges lu lc changes pending ≠ .panicked := by
  intro changes
  induction changes with
  | nil =>
    intro pending h
    rw [processChanges_nil]
    simp
  | cons c cs ih =>
    intro pending h
    by_cases hc : lu < c.updated
    · cases hcl : classifyChange lu lc c pending with
      | none =>
        have hne : classifyChange lu lc c pending ≠ none :=
          classifyChange_isSome (fun hm => h c (List.mem_cons_self c cs) hm hc)
        exact absurd hcl hne
      | some p2 =>
        rw [processChanges_cons_classified hc hcl]
        exact ih fun d hd => h d (List.mem_cons_of_mem c hd)
    · rw [processChanges_cons_stale hc]
      simp

theorem pollPages_no_panic {lu : Timestamp} {lc : CommentService} :
    ∀ {pages : List Page} {pending : List ChangeInfo} {n : Nat},
    (∀ page ∈ pages, ∀ cs : List ChangeInfo, page = .ok cs →
      ∀ c ∈ cs, c.status = Merged → lu < c.updated → c.submitted ≠ none) →
    pollPages lu lc pages pending n ≠ .panicked := by
  intro pages
  induction pages with
  | nil =>
    intro pending n _
    rw [pollPages_nil]
    simp
  | cons page rest ih =>
    intro pending n h
    match page with
    | .error e =>
      rw [pollPages_cons_error]
      simp
    | .ok [] =>
      rw [pollPages_cons_empty]
      simp
    | .ok (c :: cs) =>
      rw [pollPages_cons_page]
      have hpage := h (.ok (c :: cs)) (List.mem_cons_self _ _) (c :: cs) rfl
      cases hpc : processChanges lu lc (c :: cs) pending with
      | stop p2 => simp
      | panicked =>
        exact absurd hpc (processChanges_no_panic hpage)
      | cont p2 =>
        show pollPages lu lc rest p2 (n + 1) ≠ .panicked
        exact ih fun pg hpg => h pg (List.mem_cons_of_mem _ hpg)

theorem mem_queryAllChangesAux {gw : Gateway} {tn : Timestamp}
    {ls : List (String × Timestamp)} :
    ∀ {projects : ProjectsMap} {acc res : List ChangeInfo},
    (∀ p ∈ projects.map Prod.fst, alookup p ls = none) →
    queryAllChangesAux gw tn ls projects acc = some res →
    ∀ c ∈ res, c ∈ acc ∨ tn < c.updated := by
  intro projects
  induction projects with
  | nil =>
    intro acc res _ h c hc
    have h2 : some acc = some res := h
    cases h2
    exact Or.inl hc
  | cons pf rest ih =>
    intro acc res hall h c hc
    have hp : alookup pf.1 ls = none := by
      refine hall pf.1 ?_
      exact List.mem_map_of_mem Prod.fst (List.mem_cons_self _ _)
    rw [show queryAllChangesAux gw tn ls (pf :: rest) acc =
        (match projectPollChanges tn ls gw pf.1 with
          | none => none
          | some cs => queryAllChangesAux gw tn ls rest (acc ++ cs)) from
        by cases pf; rfl] at h
    cases hppc : projectPollChanges tn ls gw pf.1 with
    | none =>
      rw [hppc] at h
      exact absurd h (by simp)
    | some cs =>
      rw [hppc] at h
      have h2 : queryAllChangesAux gw tn ls rest (acc ++ cs) = some res := h
      have hrest : ∀ p ∈ rest.map Prod.fst, alookup p ls = none := by
        intro p hpm
        exact hall p (by simp [hpm])
      rcases ih hrest h2 c hc with h3 | h3
      · rcases List.mem_append.mp h3 with h4 | h4
        · exact Or.inl h4
        · right
          unfold projectPollChanges at hppc
          rw [hp] at hppc
          simp only [Option.getD_none] at hppc
          cases hpoll : pollPages tn gw.listComments (gw.pagesFor pf.1) [] 0 with
          | ok cs2 m =>
            rw [hpoll] at hppc
            have h5 : some cs2 = some cs := hppc
            cases h5
            rcases mem_pollPages hpoll c h4 with h6 | h6
            · exact absurd h6 (List.not_mem_nil c)
            · exact h6
          | queryError m =>
            rw [hpoll] at hppc
            have h5 : some ([] : List ChangeInfo) = some cs := hppc
            cases h5
            exact absurd h4 (List.not_mem_nil c)
          | panicked =>
            rw [hpoll] at hppc
            exact absurd hppc (by simp [pollResultChanges])
      · exact Or.inr h3

/-! The claims. -/

/-- C1: within one project poll, upon hitting the first change of a page whose
updated timestamp is not strictly after `lastUpdate`, the poller returns
exactly the changes accumulated so far — the remaining changes of the page
(`post`) are never classified and the remaining pages (`rest`) are never
requested, the page counter stopping at this page. -/
theorem queryChangesForProject_early_termination
    (lu : Timestamp) (lc : CommentService) (pre : List ChangeInfo)
    (ch : ChangeInfo) (post : List ChangeInfo) (rest : List Page)
    (pending acc : List ChangeInfo) (n : Nat)
    (hpre : processChanges lu lc pre pending = .cont acc)
    (hch : ¬ lu < ch.updated) :
    pollPages lu lc (.ok (pre ++ ch :: post) :: rest) pending n = .ok acc (n + 1) := by
  have hstop := processChanges_append_stale post hpre hch
  cases pre with
  | nil =>
    rw [List.nil_append] at hstop
    rw [List.nil_append, pollPages_cons_page, hstop]
  | cons c pre2 =>
    rw [List.cons_append] at hstop
    rw [List.cons_append, pollPages_cons_page, hstop]

/-- Witness for C1: watermark 0, first page holds a fresh merged change and
then a change updated at 0; the poll returns just the fresh change after one
page even though a later page (here an erroring one) exists. -/
theorem queryChangesForProject_early_termination_witness :
    processChanges 0 lcNone [cFreshMerged] [] = .cont [cFreshMerged] ∧
    ¬ (0 : Timestamp) < cStale.updated ∧
    pollPages 0 lcNone (.ok ([cFreshMerged] ++ cStale :: [cPost]) :: [.error ()]) [] 0 =
      .ok [cFreshMerged] 1 :=
  ⟨by decide, by decide,
    queryChangesForProject_early_termination 0 lcNone [cFreshMerged] cStale [cPost]
      [.error ()] [] [cFreshMerged] 0 (by decide) (by decide)⟩

/-- C2: a change with status MERGED whose updated timestamp is strictly after
`lastUpdate` is appended to the accumulator if and only if its submitted
timestamp is also strictly after `lastUpdate`; over a poll returning exactly
that change, it appears in the result under exactly the same condition. -/
theorem merged_change_included_iff_fresh_submit
    (lu s : Timestamp) (lc : CommentService) (change : ChangeInfo)
    (rest pending : List ChangeInfo)
    (hst : change.status = Merged) (hupd : lu < change.updated)
    (hsub : change.submitted = some s) :
    processChanges lu lc (change :: rest) pending =
      processChanges lu lc rest (if lu < s then pending ++ [change] else pending) ∧
    pollPages lu lc [.ok [change]] [] 0 =
      .ok (if lu < s then [change] else []) 1 := by
  constructor
  · exact processChanges_cons_classified hupd
      (classifyChange_merged hst hsub lu lc pending) rest
  · rw [pollPages_cons_page]
    have h1 : processChanges lu lc [change] [] =
        .cont (if lu < s then [change] else []) := by
      rw [processChanges_cons_classified hupd (classifyChange_merged hst hsub lu lc []),
        processChanges_nil]
      by_cases h : lu < s <;> simp [h]
    rw [h1]
    rfl

/-- Witness for C2: watermark 0, a merged change updated at 10 but submitted
at -5 is excluded (stale-merge exclusion). -/
theorem merged_change_included_iff_fresh_submit_witness :
    (cStaleSubmit.status = Merged ∧ (0 : Timestamp) < cStaleSubmit.updated ∧
      cStaleSubmit.submitted = some (-5)) ∧
    processChanges 0 lcNone [cStaleSubmit] [] =
      processChanges 0 lcNone []
        (if (0 : Timestamp) < -5 then [] ++ [cStaleSubmit] else []) ∧
    pollPages 0 lcNone [.ok [cStaleSubmit]] [] 0 =
      .ok (if (0 : Timestamp) < -5 then [cStaleSubmit] else []) 1 :=
  ⟨⟨by decide, by decide, by decide⟩,
    (merged_change_included_iff_fresh_submit 0 (-5) lcNone cStaleSubmit [] []
      (by decide) (by decide) (by decide)).1,
    (merged_change_included_iff_fresh_submit 0 (-5) lcNone cStaleSubmit [] []
      (by decide) (by decide) (by decide)).2⟩

/-- C3: a change with status NEW whose updated timestamp is strictly after
`lastUpdate` and whose current revision resolves in its revision map is
appended (with its patchset-level comments merged in) if and only if some
merged message tagged with the current revision's sequence number is dated
strictly after `lastUpdate`, or the current revision was created strictly
after `lastUpdate`; over a poll returning exactly that change, it appears in
the result under the same condition. -/
theorem new_change_included_iff_fresh_activity
    (lu : Timestamp) (lc : CommentService) (change : ChangeInfo)
    (rev : RevisionInfo) (rest pending : List ChangeInfo)
    (hst : change.status = New) (hupd : lu < change.updated)
    (hrev : alookup change.currentRevision change.revisions = some rev) :
    processChanges lu lc (change :: rest) pending =
      processChanges lu lc rest
        (if newMessagesFor lu rev (mergePatchsetMessages lc change).messages ||
            decide (lu < rev.created)
         then pending ++ [mergePatchsetMessages lc change] else pending) ∧
    pollPages lu lc [.ok [change]] [] 0 =
      .ok (if newMessagesFor lu rev (mergePatchsetMessages lc change).messages ||
            decide (lu < rev.created)
           then [mergePatchsetMessages lc change] else []) 1 := by
  constructor
  · exact processChanges_cons_classified hupd
      (classifyChange_new hst hrev lu lc pending) rest
  · rw [pollPages_cons_page]
    have h1 : processChanges lu lc [change] [] =
        .cont (if newMessagesFor lu rev (mergePatchsetMessages lc change).messages ||
            decide (lu < rev.created)
          then [mergePatchsetMessages lc change] else []) := by
      rw [processChanges_cons_classified hupd (classifyChange_new hst hrev lu lc []),
        processChanges_nil]
      by_cases h : (newMessagesFor lu rev (mergePatchsetMessages lc change).messages ||
          decide (lu < rev.created)) = true <;> simp [h]
    rw [h1]
    rfl

/-- Witness for C3: watermark 0, a NEW change with no messages whose current
revision was created at 5 is included. -/
theorem new_change_included_iff_fresh_activity_witness :
    (cNewFresh.status = New ∧ (0 : Timestamp) < cNewFresh.updated ∧
      alookup cNewFresh.currentRevision cNewFresh.revisions =
        some { created := 5, number := 1 }) ∧
    pollPages 0 lcNone [.ok [cNewFresh]] [] 0 =
      .ok (if newMessagesFor 0 { created := 5, number := 1 }
            (mergePatchsetMessages lcNone cNewFresh).messages ||
            decide ((0 : Timestamp) < (5 : Timestamp))
          then [mergePatchsetMessages lcNone cNewFresh] else []) 1 ∧
    pollPages 0 lcNone [.ok [cNewFresh]] [] 0 = .ok [cNewFresh] 1 :=
  ⟨⟨by decide, by decide, by decide⟩,
    (new_change_included_iff_fresh_activity 0 lcNone cNewFresh
      { created := 5, number := 1 } [] [] (by decide) (by decide) (by decide)).2,
    by decide⟩

/-- C4 (refuted by the code): on a credential-source read failure,
`authenticateOnce` does not leave the previous credential in place. The
error is only logged and `current` keeps the zero value, so with a non-empty
remembered token the comparison fails, the remembered token is overwritten
with the empty string and `SetCookieAuth("o", "")` is pushed to every
handler's gateway — here evaluated on a client whose remembered token is
"tok" with one registered handler. -/
theorem authenticateOnce_read_failure_wipes_token :
    clientTok.previousToken = "tok" ∧
    (authenticateOnce (.error ()) clientTok).1.previousToken = "" ∧
    (authenticateOnce (.error ()) clientTok).2 = [("gerrit.example.com", "")] :=
  ⟨rfl, rfl, rfl⟩

/-- C9: classifying a MERGED change updated strictly after the watermark
unconditionally dereferences its submitted timestamp (a missing value
panics), and under the precondition that every such MERGED change of every
page carries a submitted timestamp, the poll never reaches the panic
outcome. -/
theorem merged_classification_reads_submitted
    (lu : Timestamp) (lc : CommentService) (pages : List Page)
    (hall : ∀ page ∈ pages, ∀ cs : List ChangeInfo, page = .ok cs →
      ∀ c ∈ cs, c.status = Merged → lu < c.updated → c.submitted ≠ none) :
    (∀ (change : ChangeInfo) (rest pending : List ChangeInfo),
      change.status = Merged → lu < change.updated → change.submitted = none →
      processChanges lu lc (change :: rest) pending = .panicked) ∧
    ∀ pending n, pollPages lu lc pages pending n ≠ .panicked := by
  constructor
  · intro change rest pending hst hupd hsub
    exact processChanges_cons_panic hupd
      (classifyChange_merged_none hst hsub lu lc pending) rest
  · intro pending n
    exact pollPages_no_panic hall

/-- Witness for C9: a single page holding one merged change whose submitted
timestamp is present; the poll cannot panic. -/
theorem merged_classification_reads_submitted_witness :
    (∀ page ∈ [(.ok [cFreshMerged] : Page)], ∀ cs : List ChangeInfo,
      page = .ok cs → ∀ c ∈ cs, c.status = Merged →
      (0 : Timestamp) < c.updated → c.submitted ≠ none) ∧
    ∀ pending n, pollPages 0 lcNone [.ok [cFreshMerged]] pending n ≠ .panicked := by
  have hall : ∀ page ∈ [(.ok [cFreshMerged] : Page)], ∀ cs : List ChangeInfo,
      page = .ok cs → ∀ c ∈ cs, c.status = Merged →
      (0 : Timestamp) < c.updated → c.submitted ≠ none := by
    intro page hpage cs hcs c hc hst hupd
    rw [List.mem_singleton] at hpage
    subst hpage
    injection hcs with h
    subst h
    rw [List.mem_singleton] at hc
    subst hc
    decide
  exact ⟨hall, (merged_classification_reads_submitted 0 lcNone [.ok [cFreshMerged]] hall).2⟩

/-- C10: when fetching a NEW change's patchset-level comments fails, the
failure is only logged: the change's message sequence is exactly as received
(the merge step returns the change unmodified), classification proceeds on
the native messages — the change still being included when they or the
current revision are fresh — and the poll result for the caller is an `ok`,
never an error, when that page is the only one. -/
theorem comment_fetch_failure_only_logged
    (lu : Timestamp) (lc : CommentService) (change : ChangeInfo)
    (rev : RevisionInfo) (rest pending : List ChangeInfo)
    (hst : change.status = New) (hupd : lu < change.updated)
    (hrev : alookup change.currentRevision change.revisions = some rev)
    (herr : lc change.id = .error ()) :
    injectPatchsetMessages lc change = .error () ∧
    mergePatchsetMessages lc change = change ∧
    processChanges lu lc (change :: rest) pending =
      processChanges lu lc rest
        (if newMessagesFor lu rev change.messages || decide (lu < rev.created)
         then pending ++ [change] else pending) ∧
    pollPages lu lc [.ok [change]] [] 0 =
      .ok (if newMessagesFor lu rev change.messages || decide (lu < rev.created)
           then [change] else []) 1 := by
  have hinj : injectPatchsetMessages lc change = .error () := by
    unfold injectPatchsetMessages
    rw [herr]
  have hmerge : mergePatchsetMessages lc change = change :=
    mergePatchsetMessages_of_error hinj
  have hcl := classifyChange_new hst hrev lu lc pending
  rw [hmerge] at hcl
  refine ⟨hinj, hmerge, processChanges_cons_classified hupd hcl rest, ?_⟩
  have hcl0 := classifyChange_new hst hrev lu lc ([] : List ChangeInfo)
  rw [hmerge] at hcl0
  rw [pollPages_cons_page]
  have h1 : processChanges lu lc [change] [] =
      .cont (if newMessagesFor lu rev change.messages || decide (lu < rev.created)
        then [change] else []) := by
    rw [processChanges_cons_classified hupd hcl0, processChanges_nil]
    by_cases h : (newMessagesFor lu rev change.messages ||
        decide (lu < rev.created)) = true <;> simp [h]
  rw [h1]
  rfl

/-- Witness for C10: a NEW change with a fresh current revision under a
comment service that always fails is still included, with its messages
untouched. -/
theorem comment_fetch_failure_only_logged_witness :
    (cNewFresh.status = New ∧ (0 : Timestamp) < cNewFresh.updated ∧
      alookup cNewFresh.currentRevision cNewFresh.revisions =
        some { created := 5, number := 1 } ∧
      lcErr cNewFresh.id = .error ()) ∧
    mergePatchsetMessages lcErr cNewFresh = cNewFresh ∧
    pollPages 0 lcErr [.ok [cNewFresh]] [] 0 =
      .ok (if newMessagesFor 0 { created := 5, number := 1 } cNewFresh.messages ||
            decide ((0 : Timestamp) < (5 : Timestamp))
          then [cNewFresh] else []) 1 ∧
    pollPages 0 lcErr [.ok [cNewFresh]] [] 0 = .ok [cNewFresh] 1 :=
  ⟨⟨by decide, by decide, by decide, rfl⟩,
    (comment_fetch_failure_only_logged 0 lcErr cNewFresh
      { created := 5, number := 1 } [] [] (by decide) (by decide) (by decide) rfl).2.1,
    (comment_fetch_failure_only_logged 0 lcErr cNewFresh
      { created := 5, number := 1 } [] [] (by decide) (by decide) (by decide) rfl).2.2.2,
    by decide⟩

/-- C5: in the fan-out poll, a project absent from the sync-state map is
polled with a watermark equal to the time taken at the start of the poll
(`timeNow`), so every change it can contribute is updated strictly after
that moment; consequently, when every watched project is absent, every
change of the whole fan-out result is updated strictly after `timeNow`. -/
theorem queryAllChanges_absent_project_defaults_to_now
    (h : gerritInstanceHandler) (tn : Timestamp)
    (ls : List (String × Timestamp)) :
    (∀ p, alookup p ls = none →
      projectPollChanges tn ls h.gateway p =
        pollResultChanges
          (pollPages tn h.gateway.listComments (h.gateway.pagesFor p) [] 0) ∧
      ∀ cs, projectPollChanges tn ls h.gateway p = some cs →
        ∀ c ∈ cs, tn < c.updated) ∧
    ((∀ p ∈ h.projects.map Prod.fst, alookup p ls = none) →
      ∀ res, h.queryAllChanges tn ls = some res → ∀ c ∈ res, tn < c.updated) := by
  constructor
  · intro p hp
    constructor
    · unfold projectPollChanges
      rw [hp]
      rfl
    · intro cs hcs c hc
      unfold projectPollChanges at hcs
      rw [hp] at hcs
      simp only [Option.getD_none] at hcs
      cases hpoll : pollPages tn h.gateway.listComments (h.gateway.pagesFor p) [] 0 with
      | ok cs2 m =>
        rw [hpoll] at hcs
        have h2 : some cs2 = some cs := hcs
        cases h2
        rcases mem_pollPages hpoll c hc with h3 | h3
        · exact absurd h3 (List.not_mem_nil c)
        · exact h3
      | queryError m =>
        rw [hpoll] at hcs
        have h2 : some ([] : List ChangeInfo) = some cs := hcs
        cases h2
        exact absurd hc (List.not_mem_nil c)
      | panicked =>
        rw [hpoll] at hcs
        exact absurd hcs (by simp [pollResultChanges])
  · intro hall res hres c hc
    rcases mem_queryAllChangesAux hall hres c hc with h2 | h2
    · exact absurd h2 (List.not_mem_nil c)
    · exact h2

/-- Witness for C5: with an empty sync state, the project "p" is polled with
watermark 0 (= timeNow of this poll) and every returned change — concretely,
the one fresh change — is updated strictly after it. -/
theorem queryAllChanges_absent_project_defaults_to_now_witness :
    alookup "p" ([] : List (String × Timestamp)) = none ∧
    (∀ cs, projectPollChanges 0 [] hOneProject.gateway "p" = some cs →
      ∀ c ∈ cs, (0 : Timestamp) < c.updated) ∧
    projectPollChanges 0 [] hOneProject.gateway "p" = some [cNewFresh] ∧
    hOneProject.queryAllChanges 0 [] = some [cNewFresh] :=
  ⟨rfl,
    ((queryAllChanges_absent_project_defaults_to_now hOneProject 0 []).1 "p" rfl).2,
    by decide, by decide⟩

/-- C6: `QueryChangesForInstance` on an unregistered instance is a soft miss
returning an empty sequence with no error, while `QueryChangesForProject` on
an unregistered instance, or on a registered instance with an unregistered
project, returns an explicit not-found error. -/
theorem unregistered_instance_soft_miss_vs_project_error
    (c : Client) (inst project : String) (ls : LastSyncState)
    (tn lu : Timestamp) :
    (alookup inst c.handlers = none →
      c.QueryChangesForInstance inst ls tn = some [] ∧
      c.QueryChangesForProject inst project lu =
        .err ("instance handler for " ++ inst ++
          " not found, it might not have been initialized yet")) ∧
    (∀ h, alookup inst c.handlers = some h →
      alookup project h.projects = none →
      c.QueryChangesForProject inst project lu =
        .err ("project " ++ project ++ " from instance " ++ inst ++
          " not registered in gerrit handler, it might not have been initialized yet")) := by
  constructor
  · intro hnone
    constructor
    · simp only [Client.QueryChangesForInstance, hnone]
    · simp only [Client.QueryChangesForProject, hnone]
  · intro h hsome hproj
    simp only [Client.QueryChangesForProject, hsome, hproj]

/-- Witness for C6: querying the unregistered instance "nope" soft-misses;
querying the unregistered project "q" of the registered "inst1" errors. -/
theorem unregistered_instance_soft_miss_vs_project_error_witness :
    (alookup "nope" clientOne.handlers = none ∧
      clientOne.QueryChangesForInstance "nope" [] 0 = some [] ∧
      clientOne.QueryChangesForProject "nope" "q" 0 =
        .err ("instance handler for " ++ "nope" ++
          " not found, it might not have been initialized yet")) ∧
    (alookup "inst1" clientOne.handlers = some hOneProject ∧
      alookup "q" hOneProject.projects = none ∧
      clientOne.QueryChangesForProject "inst1" "q" 0 =
        .err ("project " ++ "q" ++ " from instance " ++ "inst1" ++
          " not registered in gerrit handler, it might not have been initialized yet")) :=
  ⟨⟨rfl,
    ((unregistered_instance_soft_miss_vs_project_error clientOne "nope" "q" [] 0 0).1 rfl).1,
    ((unregistered_instance_soft_miss_vs_project_error clientOne "nope" "q" [] 0 0).1 rfl).2⟩,
   ⟨rfl, rfl,
    (unregistered_instance_soft_miss_vs_project_error clientOne "inst1" "q" [] 0 0).2
      hOneProject rfl rfl⟩⟩

/-- C8: merging at least one patchset-level comment into a change's messages
re-sorts the merged sequence by timestamp: the result is that merged
sequence stably sorted — non-decreasing by date, a permutation of the merged
sequence, and, for every date, the subsequence of messages carrying that
date is exactly the one of the unsorted merged sequence (equal timestamps
keep their original relative order). -/
theorem injectPatchsetMessages_sorted_stable
    (lc : CommentService) (change : ChangeInfo) (outer : CommentMap)
    (comments : List CommentInfo)
    (houter : lc change.id = .ok outer)
    (hcomm : alookup "/PATCHSET_LEVEL" outer = some comments)
    (hne : comments ≠ []) :
    injectPatchsetMessages lc change = .ok { change with
      messages := sortMessages (change.messages ++ comments.map commentToMessage) } ∧
    (sortMessages (change.messages ++ comments.map commentToMessage)).Pairwise
      (fun a b => a.date ≤ b.date) ∧
    List.Perm (sortMessages (change.messages ++ comments.map commentToMessage))
      (change.messages ++ comments.map commentToMessage) ∧
    ∀ d, (sortMessages (change.messages ++ comments.map commentToMessage)).filter
        (fun m => m.date == d) =
      (change.messages ++ comments.map commentToMessage).filter
        (fun m => m.date == d) :=
  ⟨injectPatchsetMessages_ok_of houter hcomm hne,
    sortMessages_pairwise _, sortMessages_perm _,
    fun d => filter_date_sortMessages d _⟩

/-- Witness for C8: comments at times 1 and -1 merged with the native
message at time 0 come out ordered -1, 0, 1. -/
theorem injectPatchsetMessages_sorted_stable_witness :
    (lcTwo chNative.id = .ok outerTwo ∧
      alookup "/PATCHSET_LEVEL" outerTwo = some [comLate, comEarly] ∧
      ([comLate, comEarly] : List CommentInfo) ≠ []) ∧
    injectPatchsetMessages lcTwo chNative = .ok { chNative with
      messages := sortMessages
        (chNative.messages ++ [comLate, comEarly].map commentToMessage) } ∧
    (injectPatchsetMessages lcTwo chNative).map
        (fun c2 => c2.messages.map (fun m => m.date)) =
      .ok [-1, 0, 1] :=
  ⟨⟨rfl, rfl, by decide⟩,
    (injectPatchsetMessages_sorted_stable lcTwo chNative outerTwo [comLate, comEarly]
      rfl rfl (by decide)).1,
    rfl⟩

theorem alookup_eq_none_of_not_mem {β : Type} {k : String} :
    ∀ {l : List (String × β)}, k ∉ l.map Prod.fst → alookup k l = none := by
  intro l
  induction l with
  | nil => intro _; rfl
  | cons e rest ih =>
    obtain ⟨k2, v⟩ := e
    intro h
    simp only [List.map_cons, List.mem_cons] at h
    push_neg at h
    simp only [alookup]
    rw [if_neg h.1]
    exact ih h.2

theorem updateClients_nil (ng : String → Except Unit Gateway)
    (old : List (String × gerritInstanceHandler)) :
    UpdateClients ng old [] = ([], 0) := rfl

theorem updateClients_cons_existing {ng : String → Except Unit Gateway}
    {old : List (String × gerritInstanceHandler)} {i : String}
    {handler : gerritInstanceHandler} (p : ProjectsMap)
    (rest : List (String × ProjectsMap))
    (hsome : alookup i old = some handler) :
    UpdateClients ng old ((i, p) :: rest) =
      ((i, { handler with projects := p }) :: (UpdateClients ng old rest).1,
        (UpdateClients ng old rest).2) := by
  simp only [UpdateClients]
  rw [hsome]

theorem updateClients_cons_fresh {ng : String → Except Unit Gateway}
    {old : List (String × gerritInstanceHandler)} {i : String} {gw : Gateway}
    (p : ProjectsMap) (rest : List (String × ProjectsMap))
    (hnone : alookup i old = none) (hok : ng i = .ok gw) :
    UpdateClients ng old ((i, p) :: rest) =
      ((i, { inst := i, projects := p, gateway := gw }) ::
          (UpdateClients ng old rest).1,
        (UpdateClients ng old rest).2) := by
  simp only [UpdateClients]
  rw [hnone, hok]

theorem updateClients_cons_err {ng : String → Except Unit Gateway}
    {old : List (String × gerritInstanceHandler)} {i : String}
    (p : ProjectsMap) (rest : List (String × ProjectsMap))
    (hnone : alookup i old = none) (herr : ng i = .error ()) :
    UpdateClients ng old ((i, p) :: rest) =
      ((UpdateClients ng old rest).1, (UpdateClients ng old rest).2 + 1) := by
  simp only [UpdateClients]
  rw [hnone, herr]

theorem updateClients_keys_sub {ng : String → Except Unit Gateway}
    {old : List (String × gerritInstanceHandler)} :
    ∀ {instances : List (String × ProjectsMap)} {x : String},
    x ∈ (UpdateClients ng old instances).1.map Prod.fst →
    x ∈ instances.map Prod.fst := by
  intro instances
  induction instances with
  | nil =>
    intro x hx
    rw [updateClients_nil] at hx
    simp at hx
  | cons e rest ih =>
    obtain ⟨i, p⟩ := e
    intro x hx
    cases halo : alookup i old with
    | some handler =>
      rw [updateClients_cons_existing p rest halo] at hx
      simp only [List.map_cons, List.mem_cons] at hx ⊢
      rcases hx with h | h
      · exact Or.inl h
      · exact Or.inr (ih h)
    | none =>
      cases hng : ng i with
      | error e2 =>
        cases e2
        rw [updateClients_cons_err p rest halo hng] at hx
        simp only [List.map_cons, List.mem_cons]
        exact Or.inr (ih hx)
      | ok gw =>
        rw [updateClients_cons_fresh p rest halo hng] at hx
        simp only [List.map_cons, List.mem_cons] at hx ⊢
        rcases hx with h | h
        · exact Or.inl h
        · exact Or.inr (ih h)

theorem updateClients_preserves_existing {ng : String → Except Unit Gateway}
    {old : List (String × gerritInstanceHandler)} :
    ∀ {instances : List (String × ProjectsMap)},
    (instances.map Prod.fst).Nodup →
    ∀ inst projs, (inst, projs) ∈ instances →
    ∀ h, alookup inst old = some h →
    alookup inst (UpdateClients ng old instances).1 =
      some { h with projects := projs } := by
  intro instances
  induction instances with
  | nil =>
    intro _ inst projs hmem
    exact absurd hmem (List.not_mem_nil _)
  | cons e rest ih =>
    obtain ⟨i, p⟩ := e
    intro hnd inst projs hmem h hold
    have hnd2 : (rest.map Prod.fst).Nodup := (List.nodup_cons.mp hnd).2
    have hinotin : i ∉ rest.map Prod.fst := (List.nodup_cons.mp hnd).1
    rcases List.mem_cons.mp hmem with heq | hmem2
    · rw [Prod.mk.injEq] at heq
      obtain ⟨rfl, rfl⟩ := heq
      rw [updateClients_cons_existing projs rest hold]
      simp [alookup]
    · have hne : inst ≠ i := by
        intro he
        subst he
        exact hinotin (List.mem_map_of_mem Prod.fst hmem2)
      cases halo : alookup i old with
      | some handler =>
        rw [updateClients_cons_existing p rest halo]
        simp only [alookup]
        rw [if_neg hne]
        exact ih hnd2 inst projs hmem2 h hold
      | none =>
        cases hng : ng i with
        | error e2 =>
          cases e2
          rw [updateClients_cons_err p rest halo hng]
          exact ih hnd2 inst projs hmem2 h hold
        | ok gw =>
          rw [updateClients_cons_fresh p rest halo hng]
          simp only [alookup]
          rw [if_neg hne]
          exact ih hnd2 inst projs hmem2 h hold

theorem updateClients_constructs_fresh {ng : String → Except Unit Gateway}
    {old : List (String × gerritInstanceHandler)} :
    ∀ {instances : List (String × ProjectsMap)},
    (instances.map Prod.fst).Nodup →
    ∀ inst projs, (inst, projs) ∈ instances →
    alookup inst old = none → ∀ gw, ng inst = .ok gw →
    alookup inst (UpdateClients ng old instances).1 =
      some { inst := inst, projects := projs, gateway := gw } := by
  intro instances
  induction instances with
  | nil =>
    intro _ inst projs hmem
    exact absurd hmem (List.not_mem_nil _)
  | cons e rest ih =>
    obtain ⟨i, p⟩ := e
    intro hnd inst projs hmem hold gw hng
    have hnd2 : (rest.map Prod.fst).Nodup := (List.nodup_cons.mp hnd).2
    have hinotin : i ∉ rest.map Prod.fst := (List.nodup_cons.mp hnd).1
    rcases List.mem_cons.mp hmem with heq | hmem2
    · rw [Prod.mk.injEq] at heq
      obtain ⟨rfl, rfl⟩ := heq
      rw [updateClients_cons_fresh projs rest hold hng]
      simp [alookup]
    · have hne : inst ≠ i := by
        intro he
        subst he
        exact hinotin (List.mem_map_of_mem Prod.fst hmem2)
      cases halo : alookup i old with
      | some handler =>
        rw [updateClients_cons_existing p rest halo]
        simp only [alookup]
        rw [if_neg hne]
        exact ih hnd2 inst projs hmem2 hold gw hng
      | none =>
        cases hng2 : ng i with
        | error e2 =>
          cases e2
          rw [updateClients_cons_err p rest halo hng2]
          exact ih hnd2 inst projs hmem2 hold gw hng
        | ok gw2 =>
          rw [updateClients_cons_fresh p rest halo hng2]
          simp only [alookup]
          rw [if_neg hne]
          exact ih hnd2 inst projs hmem2 hold gw hng

theorem updateClients_error_counted {ng : String → Except Unit Gateway}
    {old : List (String × gerritInstanceHandler)} :
    ∀ {instances : List (String × ProjectsMap)},
    ∀ inst projs, (inst, projs) ∈ instances →
    alookup inst old = none → ng inst = .error () →
    0 < (UpdateClients ng old instances).2 := by
  intro instances
  induction instances with
  | nil =>
    intro inst projs hmem
    exact absurd hmem (List.not_mem_nil _)
  | cons e rest ih =>
    obtain ⟨i, p⟩ := e
    intro inst projs hmem hold herr
    rcases List.mem_cons.mp hmem with heq | hmem2
    · rw [Prod.mk.injEq] at heq
      obtain ⟨rfl, rfl⟩ := heq
      rw [updateClients_cons_err projs rest hold herr]
      exact Nat.succ_pos _
    · cases halo : alookup i old with
      | some handler =>
        rw [updateClients_cons_existing p rest halo]
        exact ih inst projs hmem2 hold herr
      | none =>
        cases hng : ng i with
        | error e2 =>
          cases e2
          rw [updateClients_cons_err p rest halo hng]
          exact Nat.succ_pos _
        | ok gw =>
          rw [updateClients_cons_fresh p rest halo hng]
          exact ih inst projs hmem2 hold herr

/-- C7: reconciling the handler map against a desired instance map (with
distinct instance keys, as a Go map has) keeps the existing handler of each
desired instance already present, replacing only its project set; drops
every instance absent from the desired map; installs a freshly constructed
handler for each new instance whose construction succeeds, even when some
other construction fails; and reports a positive aggregate error count
whenever any new instance's construction fails. -/
theorem updateClients_reconciles
    (ng : String → Except Unit Gateway)
    (old : List (String × gerritInstanceHandler))
    (instances : List (String × ProjectsMap))
    (hkeys : (instances.map Prod.fst).Nodup) :
    (∀ inst projs, (inst, projs) ∈ instances →
      ∀ h, alookup inst old = some h →
        alookup inst (UpdateClients ng old instances).1 =
          some { h with projects := projs }) ∧
    (∀ inst, inst ∉ instances.map Prod.fst →
      alookup inst (UpdateClients ng old instances).1 = none) ∧
    (∀ inst projs, (inst, projs) ∈ instances →
      alookup inst old = none → ∀ gw, ng inst = .ok gw →
        alookup inst (UpdateClients ng old instances).1 =
          some { inst := inst, projects := projs, gateway := gw }) ∧
    (∀ inst projs, (inst, projs) ∈ instances →
      alookup inst old = none → ng inst = .error () →
      0 < (UpdateClients ng old instances).2) :=
  ⟨fun inst projs hmem h hold =>
      updateClients_preserves_existing hkeys inst projs hmem h hold,
    fun _ hnot =>
      alookup_eq_none_of_not_mem fun hmem => hnot (updateClients_keys_sub hmem),
    fun inst projs hmem hold gw hng =>
      updateClients_constructs_fresh hkeys inst projs hmem hold gw hng,
    fun inst projs hmem hold herr =>
      updateClients_error_counted inst projs hmem hold herr⟩

/-- Witness for C7: "inst1" keeps its handler with the project set swapped,
the dropped "gone" disappears, the fresh "new1" is installed despite "bad"
failing, and the aggregate error count is positive. -/
theorem updateClients_reconciles_witness :
    ((desiredMap.map Prod.fst).Nodup ∧
      ("inst1", [("q", (none : Option GerritQueryFilter))]) ∈ desiredMap ∧
      alookup "inst1" oldHandlers = some hOneProject ∧
      alookup "new1" oldHandlers = none ∧ ngPartial "new1" = .ok gwEmpty ∧
      alookup "bad" oldHandlers = none ∧ ngPartial "bad" = .error ()) ∧
    alookup "inst1" (UpdateClients ngPartial oldHandlers desiredMap).1 =
      some { hOneProject with projects := [("q", none)] } ∧
    alookup "gone" (UpdateClients ngPartial oldHandlers desiredMap).1 = none ∧
    alookup "new1" (UpdateClients ngPartial oldHandlers desiredMap).1 =
      some { inst := "new1", projects := [("r", none)], gateway := gwEmpty } ∧
    0 < (UpdateClients ngPartial oldHandlers desiredMap).2 := by
  have hkeys : (desiredMap.map Prod.fst).Nodup := by decide
  have hc := updateClients_reconciles ngPartial oldHandlers desiredMap hkeys
  refine ⟨⟨hkeys, by decide, rfl, rfl, rfl, rfl, rfl⟩, ?_, ?_, ?_, ?_⟩
  · exact hc.1 "inst1" [("q", none)] (by decide) hOneProject rfl
  · exact hc.2.1 "gone" (by decide)
  · exact hc.2.2.1 "new1" [("r", none)] (by decide) rfl gwEmpty rfl
  · exact hc.2.2.2 "bad" [] (by decide) rfl rfl

end GerritClient
